import Mathlib

/-!
Verification of the echopad vault-sync client (src/src-tauri/src/sync/).

Rust strings are UTF-8 byte sequences; we model them as lists of natural
numbers (the byte values).  Pure functions of the source are transcribed
directly; the filesystem, the HTTP transport, the clock and the BLAKE3
hash are modelled as explicit inputs (association lists and function
parameters), so every definition stays executable.
-/

namespace Echopad

/-- A Rust string, as its list of UTF-8 bytes. -/
abbrev RStr := List Nat

/-- Byte list of an ASCII Lean string literal; used to transcribe the string
literals appearing in the source. -/
def str (s : String) : RStr := s.data.map Char.toNat

/-- Error type of src/src-tauri/src/sync/error.rs (`SyncError`); the payloads
carry the formatted message bytes. -/
inductive SyncError where
  | AuthRequired | InvalidCredentials | SessionExpired | DeviceNotRegistered
  | VaultNotFound (s : RStr) | FileNotFound (s : RStr) | Conflict (s : RStr)
  | Encryption (s : RStr) | Decryption (s : RStr) | KeyDerivation (s : RStr)
  | Network (s : RStr) | Server (s : RStr) | RateLimited (n : Nat)
  | QuotaExceeded | Database (s : RStr) | Io (s : RStr) | Json (s : RStr)
  | InvalidState (s : RStr) | InvalidData (s : RStr)
  deriving DecidableEq, Repr

/-! ### Base64 (base64 crate, `general_purpose::STANDARD`)

The STANDARD engine pads on encode and, on decode, requires canonical
padding and rejects non-zero trailing bits, so decoding succeeds exactly
on canonical encodings.  Sextet values are mapped to the ASCII codes of
the standard alphabet; 61 is the ASCII code of the pad character. -/

/-- Sextet value (0..63) to the ASCII code of its standard-alphabet symbol. -/
def sextetToChar (s : Nat) : Nat :=
  if s < 26 then s + 65
  else if s < 52 then s + 71
  else if s < 62 then s - 4
  else if s = 62 then 43
  else 47

/-- ASCII code to sextet value; `none` for bytes outside the alphabet
(including the pad 61). -/
def charToSextet (c : Nat) : Option Nat :=
  if 65 ≤ c ∧ c ≤ 90 then some (c - 65)
  else if 97 ≤ c ∧ c ≤ 122 then some (c - 71)
  else if 48 ≤ c ∧ c ≤ 57 then some (c + 4)
  else if c = 43 then some 62
  else if c = 47 then some 63
  else none

/-- Base64 encoding of a byte list (standard alphabet, with padding). -/
def b64encode : List Nat → List Nat
  | [] => []
  | [b0] => [sextetToChar (b0 / 4), sextetToChar (b0 % 4 * 16), 61, 61]
  | [b0, b1] =>
      [sextetToChar (b0 / 4), sextetToChar (b0 % 4 * 16 + b1 / 16),
       sextetToChar (b1 % 16 * 4), 61]
  | b0 :: b1 :: b2 :: rest =>
      sextetToChar (b0 / 4) :: sextetToChar (b0 % 4 * 16 + b1 / 16) ::
      sextetToChar (b1 % 16 * 4 + b2 / 64) :: sextetToChar (b2 % 64) ::
      b64encode rest

/-- Base64 decoding: requires length a multiple of four, canonical padding
only at the very end, and zero trailing bits in the final partial group. -/
def b64decode : List Nat → Option (List Nat)
  | [] => some []
  | c0 :: c1 :: c2 :: c3 :: rest =>
      match charToSextet c0, charToSextet c1 with
      | some s0, some s1 =>
        if c2 = 61 then
          if c3 = 61 ∧ rest = [] ∧ s1 % 16 = 0 then
            some [s0 * 4 + s1 / 16]
          else none
        else
          match charToSextet c2 with
          | some s2 =>
            if c3 = 61 then
              if rest = [] ∧ s2 % 4 = 0 then
                some [s0 * 4 + s1 / 16, s1 % 16 * 16 + s2 / 4]
              else none
            else
              match charToSextet c3 with
              | some s3 =>
                (b64decode rest).map
                  (fun bs =>
                    (s0 * 4 + s1 / 16) :: (s1 % 16 * 16 + s2 / 4) ::
                    (s2 % 4 * 64 + s3) :: bs)
              | none => none
          | none => none
      | _, _ => none
  | _ => none

/-- A continuation byte of a UTF-8 sequence. -/
def isCont (b : Nat) : Bool := 128 ≤ b && b ≤ 191

/-- UTF-8 validity of a byte list, following the table used by Rust's
`String::from_utf8` (RFC 3629: no overlongs, no surrogates, max U+10FFFF). -/
def utf8Valid : List Nat → Bool
  | [] => true
  | b :: rest =>
    if b ≤ 127 then utf8Valid rest
    else if 194 ≤ b && b ≤ 223 then
      match rest with
      | b1 :: r => isCont b1 && utf8Valid r
      | [] => false
    else if b = 224 then
      match rest with
      | b1 :: b2 :: r => (160 ≤ b1 && b1 ≤ 191) && isCont b2 && utf8Valid r
      | _ => false
    else if (225 ≤ b && b ≤ 236) || b = 238 || b = 239 then
      match rest with
      | b1 :: b2 :: r => isCont b1 && isCont b2 && utf8Valid r
      | _ => false
    else if b = 237 then
      match rest with
      | b1 :: b2 :: r => (128 ≤ b1 && b1 ≤ 159) && isCont b2 && utf8Valid r
      | _ => false
    else if b = 240 then
      match rest with
      | b1 :: b2 :: b3 :: r =>
          (144 ≤ b1 && b1 ≤ 191) && isCont b2 && isCont b3 && utf8Valid r
      | _ => false
    else if 241 ≤ b && b ≤ 243 then
      match rest with
      | b1 :: b2 :: b3 :: r =>
          isCont b1 && isCont b2 && isCont b3 && utf8Valid r
      | _ => false
    else if b = 244 then
      match rest with
      | b1 :: b2 :: b3 :: r =>
          (128 ≤ b1 && b1 ≤ 143) && isCont b2 && isCont b3 && utf8Valid r
      | _ => false
    else false

/-- engine.rs `encode_path`: base64 of the UTF-8 bytes of the path. -/
def encode_path (path : RStr) : RStr := b64encode path

/-- engine.rs `decode_path`: try base64 decode to valid UTF-8; on any
failure return the input unchanged.  The `SyncResult` return type of the
source is kept, although no branch produces an error. -/
def decode_path (encoded : RStr) : Except SyncError RStr :=
  match b64decode encoded with
  | some bytes => if utf8Valid bytes then .ok bytes else .ok encoded
  | none => .ok encoded

/-! ### Base64 round-trip lemmas -/

theorem charToSextet_inv {c s : Nat} (h : charToSextet c = some s) :
    sextetToChar s = c ∧ s < 64 := by
  unfold charToSextet at h
  split_ifs at h with h1 h2 h3 h4 h5 <;>
    simp only [Option.some.injEq] at h <;> subst h <;>
    refine ⟨?_, by omega⟩ <;> unfold sextetToChar <;> split_ifs <;> omega

theorem b64_roundtrip : ∀ (x b : List Nat), b64decode x = some b → b64encode b = x
  | [], b, h => by
      simp only [b64decode, Option.some.injEq] at h
      subst h; rfl
  | [c0], b, h => by unfold b64decode at h; exact Option.noConfusion h
  | [c0, c1], b, h => by unfold b64decode at h; exact Option.noConfusion h
  | [c0, c1, c2], b, h => by unfold b64decode at h; exact Option.noConfusion h
  | c0 :: c1 :: c2 :: c3 :: rest, b, h => by
      unfold b64decode at h
      cases hc0 : charToSextet c0 with
      | none =>
        rw [hc0] at h
        cases charToSextet c1 <;> exact Option.noConfusion h
      | some s0 =>
        cases hc1 : charToSextet c1 with
        | none => rw [hc0, hc1] at h; exact Option.noConfusion h
        | some s1 =>
          simp only [hc0, hc1] at h
          obtain ⟨e0, l0⟩ := charToSextet_inv hc0
          obtain ⟨e1, l1⟩ := charToSextet_inv hc1
          by_cases hp2 : c2 = 61
          · rw [if_pos hp2] at h
            split_ifs at h with hcond
            · obtain ⟨hc3, hrest, htrail⟩ := hcond
              simp only [Option.some.injEq] at h
              subst h; subst hc3; subst hrest; subst hp2
              have d0 : (s0 * 4 + s1 / 16) / 4 = s0 := by omega
              have d1 : (s0 * 4 + s1 / 16) % 4 * 16 = s1 := by omega
              simp only [b64encode]
              rw [d0, d1, e0, e1]
          · rw [if_neg hp2] at h
            cases hc2 : charToSextet c2 with
            | none => rw [hc2] at h; exact Option.noConfusion h
            | some s2 =>
              simp only [hc2] at h
              obtain ⟨e2, l2⟩ := charToSextet_inv hc2
              by_cases hp3 : c3 = 61
              · rw [if_pos hp3] at h
                split_ifs at h with hcond
                · obtain ⟨hrest, htrail⟩ := hcond
                  simp only [Option.some.injEq] at h
                  subst h; subst hrest; subst hp3
                  have d0 : (s0 * 4 + s1 / 16) / 4 = s0 := by omega
                  have d1 : (s0 * 4 + s1 / 16) % 4 * 16 +
                      (s1 % 16 * 16 + s2 / 4) / 16 = s1 := by omega
                  have d2 : (s1 % 16 * 16 + s2 / 4) % 16 * 4 = s2 := by omega
                  simp only [b64encode]
                  rw [d0, d1, d2, e0, e1, e2]
              · rw [if_neg hp3] at h
                cases hc3 : charToSextet c3 with
                | none => rw [hc3] at h; exact Option.noConfusion h
                | some s3 =>
                  simp only [hc3] at h
                  obtain ⟨e3, l3⟩ := charToSextet_inv hc3
                  cases hdr : b64decode rest with
                  | none => rw [hdr] at h; exact Option.noConfusion h
                  | some bs =>
                    rw [hdr] at h
                    have h2 : some ((s0 * 4 + s1 / 16) :: (s1 % 16 * 16 + s2 / 4) ::
                        (s2 % 4 * 64 + s3) :: bs) = some b := h
                    have hb := Option.some.inj h2
                    subst hb
                    have ih := b64_roundtrip rest bs hdr
                    have d0 : (s0 * 4 + s1 / 16) / 4 = s0 := by omega
                    have d1 : (s0 * 4 + s1 / 16) % 4 * 16 +
                        (s1 % 16 * 16 + s2 / 4) / 16 = s1 := by omega
                    have d2 : (s1 % 16 * 16 + s2 / 4) % 16 * 4 +
                        (s2 % 4 * 64 + s3) / 64 = s2 := by omega
                    have d3 : (s2 % 4 * 64 + s3) % 64 = s3 := by omega
                    simp only [b64encode]
                    rw [d0, d1, d2, d3, e0, e1, e2, e3, ih]

/-- C5 counterexample: the byte string "/w==" is valid base64 (it decodes to
the single byte 255, which is not valid UTF-8), so `decode_path` falls back
to returning it unchanged, and `encode_path` of that result is not the
original input: the round-trip fails on a base64-valid input. -/
theorem encode_decode_path_counterexample :
    (b64decode (str "/w==")).isSome = true ∧
    decode_path (str "/w==") = .ok (str "/w==") ∧
    encode_path (str "/w==") ≠ str "/w==" := by
  refine ⟨by decide, by rfl, by decide⟩

/-- C5 (amended): `encode_path (decode_path x) = x` holds for every base64
input whose decoded bytes are valid UTF-8 (not for every base64-valid input:
see the counterexample); and `decode_path` returns a non-base64 input
unchanged. -/
theorem encode_decode_path_roundtrip :
    (∀ x b : RStr, b64decode x = some b → utf8Valid b = true →
      decode_path x = .ok b ∧ encode_path b = x) ∧
    (∀ p : RStr, b64decode p = none → decode_path p = .ok p) := by
  constructor
  · intro x b hdec hval
    refine ⟨?_, b64_roundtrip x b hdec⟩
    unfold decode_path
    simp [hdec, hval]
  · intro p hdec
    unfold decode_path
    rw [hdec]

theorem encode_decode_path_roundtrip_witness :
    decode_path (str "aGk=") = .ok (str "hi") ∧
    encode_path (str "hi") = str "aGk=" ∧
    decode_path (str "notes/test.md") = .ok (str "notes/test.md") :=
  ⟨(encode_decode_path_roundtrip.1 (str "aGk=") (str "hi") (by decide) (by decide)).1,
   (encode_decode_path_roundtrip.1 (str "aGk=") (str "hi") (by decide) (by decide)).2,
   encode_decode_path_roundtrip.2 (str "notes/test.md") (by decide)⟩

/-- C9: `decode_path` is total and infallible — every input yields `Ok`,
despite the fallible `SyncResult` return type of the source; callers'
error branches on it are unreachable. -/
theorem decode_path_infallible : ∀ encoded : RStr, ∃ s, decode_path encoded = .ok s := by
  intro encoded
  unfold decode_path
  cases b64decode encoded with
  | none => exact ⟨encoded, rfl⟩
  | some bytes =>
    by_cases h : utf8Valid bytes = true
    · exact ⟨bytes, by simp [h]⟩
    · exact ⟨encoded, by simp [h]⟩

/-! ### Scanner (src/src-tauri/src/sync/scanner.rs) -/

/-- scanner.rs `FileInfo`. -/
structure FileInfo where
  relative_path : RStr
  content_hash : RStr
  size_bytes : Nat
  modified_at : Nat
  deriving DecidableEq, Repr

/-- scanner.rs `ScanResult`; the `files` HashMap is modelled as an
association list keyed by the relative path. -/
structure ScanResult where
  files : List (RStr × FileInfo)
  total_size : Nat
  file_count : Nat
  deriving DecidableEq, Repr

/-- Association-list lookup, modelling `HashMap::get`. -/
def lookupA {α : Type} (l : List (RStr × α)) (k : RStr) : Option α :=
  match l with
  | [] => none
  | (k2, v) :: rest => if k2 = k then some v else lookupA rest k

/-- scanner.rs `ChangeSet`. -/
structure ChangeSet where
  changed : List FileInfo
  deleted : List RStr
  deriving DecidableEq, Repr

/-- scanner.rs `detect_changes`: the first loop keeps a snapshot file when
its path is missing from `previous` or its hash differs; the second loop
collects the keys of `previous` that are absent from the snapshot. -/
def detect_changes (current : ScanResult) (previous : List (RStr × RStr)) : ChangeSet :=
  { changed :=
      (current.files.filter (fun pi =>
        match lookupA previous pi.1 with
        | some prev_hash => decide (prev_hash ≠ pi.2.content_hash)
        | none => true)).map (fun pi => pi.2)
  , deleted :=
      (previous.map (fun pv => pv.1)).filter
        (fun path => (lookupA current.files path).isNone) }

/-- C3: `detect_changes` returns exactly the snapshot files whose path is
absent from `previous` or whose hash differs from the stored hash, and
exactly the previous paths absent from the snapshot. -/
theorem detect_changes_spec (current : ScanResult) (previous : List (RStr × RStr)) :
    (∀ info, info ∈ (detect_changes current previous).changed ↔
      ∃ p, (p, info) ∈ current.files ∧ lookupA previous p ≠ some info.content_hash) ∧
    (∀ p, p ∈ (detect_changes current previous).deleted ↔
      ((∃ h, (p, h) ∈ previous) ∧ lookupA current.files p = none)) := by
  constructor
  · intro info
    unfold detect_changes
    simp only [List.mem_map, List.mem_filter]
    constructor
    · rintro ⟨⟨p, i⟩, ⟨hmem, hcond⟩, rfl⟩
      refine ⟨p, hmem, ?_⟩
      revert hcond
      cases hl : lookupA previous p with
      | none => simp [hl]
      | some ph => simp [hl]
    · rintro ⟨p, hmem, hne⟩
      refine ⟨(p, info), ⟨hmem, ?_⟩, rfl⟩
      cases hl : lookupA previous p with
      | none => simp
      | some ph =>
        simp only [decide_eq_true_eq]
        intro heq
        exact hne (by rw [hl, heq])
  · intro p
    unfold detect_changes
    simp only [List.mem_filter, List.mem_map, Option.isNone_iff_eq_none]
    constructor
    · rintro ⟨⟨⟨q, h⟩, hmem, rfl⟩, hnone⟩
      exact ⟨⟨h, hmem⟩, hnone⟩
    · rintro ⟨⟨h, hmem⟩, hnone⟩
      exact ⟨⟨(p, h), hmem, rfl⟩, hnone⟩

/-! ### ConflictManager (src/src-tauri/src/sync/conflict.rs)

`generate_conflict_path` and `get_original_path` act only on the final
path component (through `file_stem`, `extension` and `with_file_name`);
the directory part is carried unchanged by `with_file_name` on both
sides, so they are modelled on the file name.  The system clock read in
`generate_conflict_path` is an explicit `timestamp` argument. -/

/-- Split a byte list at its first 46 (".") into the dot-free part before
and the part after; `none` when there is no dot. -/
def splitFirstDot (l : RStr) : Option (RStr × RStr) :=
  match l with
  | [] => none
  | c :: rest =>
      if c = 46 then some ([], rest)
      else (splitFirstDot rest).map (fun p => (c :: p.1, p.2))

/-- Split a byte list at its last dot. -/
def splitLastDot (l : RStr) : Option (RStr × RStr) :=
  (splitFirstDot l.reverse).map (fun p => (p.2.reverse, p.1.reverse))

/-- Rust `Path::file_stem` on a file name: the part before the last dot,
or the whole name when there is no dot or only a single leading dot. -/
def fileStem (name : RStr) : RStr :=
  match splitLastDot name with
  | some (before, _) => if before = [] then name else before
  | none => name

/-- Rust `Path::extension` on a file name: the part after the last dot,
`none` when there is no dot or the only dot is leading. -/
def fileExtension (name : RStr) : Option RStr :=
  match splitLastDot name with
  | some (before, after) => if before = [] then none else some after
  | none => none

/-- conflict.rs `CONFLICT_SUFFIX`. -/
def CONFLICT_SUFFIX : RStr := str ".sync-conflict-"

/-- Index of the first occurrence of `p` in `l` (Rust `str::find`). -/
def findSub (p l : RStr) : Option Nat :=
  match l with
  | [] => if p = [] then some 0 else none
  | c :: t =>
      if p.isPrefixOf (c :: t) then some 0
      else (findSub p t).map (fun n => n + 1)

/-- conflict.rs `generate_conflict_path`, on the file name: stem, the
conflict suffix, the first eight characters of the device id, the unix
timestamp, and the dotted extension when the original has one. -/
def generate_conflict_path (original_name device_id : RStr) (timestamp : Nat) : RStr :=
  let ext := match fileExtension original_name with
    | some e => 46 :: e
    | none => []
  fileStem original_name ++ CONFLICT_SUFFIX ++ device_id.take 8 ++
    str (Nat.repr timestamp) ++ ext

/-- conflict.rs `get_original_path`, on the file name: everything before
the first `.sync-conflict-`, followed by the dotted extension of the
conflict name when it has one. -/
def get_original_path (conflict_name : RStr) : Option RStr :=
  match findSub CONFLICT_SUFFIX conflict_name with
  | some idx =>
      let ext := match fileExtension conflict_name with
        | some e => 46 :: e
        | none => []
      some (conflict_name.take idx ++ ext)
  | none => none

theorem splitFirstDot_append (a b : RStr) (ha : 46 ∉ a) :
    splitFirstDot (a ++ 46 :: b) = some (a, b) := by
  induction a with
  | nil => simp [splitFirstDot]
  | cons c t ih =>
    have hc : c ≠ 46 := fun h => ha (h ▸ List.mem_cons_self c t)
    have ht : 46 ∉ t := fun h => ha (List.mem_cons_of_mem c h)
    simp only [List.cons_append, splitFirstDot, if_neg hc, List.append_eq, ih ht]
    rfl

theorem splitLastDot_append (stem ext : RStr) (hext : 46 ∉ ext) :
    splitLastDot (stem ++ 46 :: ext) = some (stem, ext) := by
  unfold splitLastDot
  have hrev : (stem ++ 46 :: ext).reverse = ext.reverse ++ 46 :: stem.reverse := by
    simp [List.reverse_append, List.reverse_cons, List.append_assoc]
  rw [hrev, splitFirstDot_append _ _ (fun h => hext (List.mem_reverse.mp h))]
  simp

theorem fileStem_append (stem ext : RStr) (hstem : stem ≠ []) (hext : 46 ∉ ext) :
    fileStem (stem ++ 46 :: ext) = stem := by
  unfold fileStem
  rw [splitLastDot_append stem ext hext]
  simp [hstem]

theorem fileExtension_append (stem ext : RStr) (hstem : stem ≠ []) (hext : 46 ∉ ext) :
    fileExtension (stem ++ 46 :: ext) = some ext := by
  unfold fileExtension
  rw [splitLastDot_append stem ext hext]
  simp [hstem]

theorem findSub_none {p l : RStr} (h : findSub p l = none) :
    ∀ j, ¬ (p.isPrefixOf (l.drop j) = true) := by
  induction l with
  | nil =>
    intro j hpre
    unfold findSub at h
    split_ifs at h with hp
    exact hp (List.prefix_nil.mp (List.isPrefixOf_iff_prefix.mp (by simpa using hpre)))
  | cons c t ih =>
    intro j hpre
    unfold findSub at h
    split_ifs at h with hp
    have ht : findSub p t = none := by
      cases hft : findSub p t with
      | none => rfl
      | some n => rw [hft] at h; exact Option.noConfusion h
    cases j with
    | zero => exact hp (by simpa using hpre)
    | succ j2 => exact ih ht j2 (by simpa using hpre)

theorem findSub_append {p a b : RStr} (hb : p.isPrefixOf b = true)
    (hno : ∀ i, i < a.length → ¬ (p.isPrefixOf ((a ++ b).drop i) = true)) :
    findSub p (a ++ b) = some a.length := by
  induction a with
  | nil =>
    cases b with
    | nil =>
      have hp : p = [] := List.prefix_nil.mp (List.isPrefixOf_iff_prefix.mp hb)
      simp [findSub, hp]
    | cons c t => simp [findSub, hb]
  | cons x a2 ih =>
    have h0 : ¬ (p.isPrefixOf (x :: (a2 ++ b)) = true) := by
      have := hno 0 (by simp)
      simpa using this
    have ih2 := ih (fun i hi => by
      have := hno (i + 1) (by simpa using Nat.succ_lt_succ hi)
      simpa using this)
    simp only [List.cons_append, findSub, List.append_eq, if_neg h0, ih2]
    rfl

/-- `.sync-conflict-` has no self-overlap: no non-trivial suffix of it is a
prefix of it (its only dot is the leading one). -/
theorem conflict_suffix_no_overlap :
    ∀ k, k < 15 → 0 < k →
      CONFLICT_SUFFIX.drop k ≠ CONFLICT_SUFFIX.take (15 - k) := by decide

/-- In `stem ++ .sync-conflict- ++ tail` with the marker absent from `stem`,
no occurrence of the marker starts before position `stem.length`. -/
theorem no_early_occurrence (stem tail : RStr)
    (hstem : findSub CONFLICT_SUFFIX stem = none) :
    ∀ i, i < stem.length →
      ¬ (CONFLICT_SUFFIX.isPrefixOf ((stem ++ (CONFLICT_SUFFIX ++ tail)).drop i) = true) := by
  intro i hi hpre
  rw [List.drop_append_of_le_length (le_of_lt hi)] at hpre
  have hpre2 : CONFLICT_SUFFIX <+: stem.drop i ++ (CONFLICT_SUFFIX ++ tail) :=
    List.isPrefixOf_iff_prefix.mp hpre
  have hk : (stem.drop i).length = stem.length - i := List.length_drop i stem
  have hslen : CONFLICT_SUFFIX.length = 15 := by decide
  by_cases hlen : 15 ≤ (stem.drop i).length
  · have hsub : CONFLICT_SUFFIX <+: stem.drop i :=
      List.prefix_of_prefix_length_le hpre2
        (List.prefix_append (stem.drop i) (CONFLICT_SUFFIX ++ tail))
        (by rw [hslen]; exact hlen)
    exact findSub_none hstem i (List.isPrefixOf_iff_prefix.mpr hsub)
  · push_neg at hlen
    have hkpos : 0 < (stem.drop i).length := by omega
    obtain ⟨t, htail⟩ := hpre2
    have htake : CONFLICT_SUFFIX.take (stem.drop i).length = stem.drop i := by
      have h1 := congrArg (List.take (stem.drop i).length) htail
      rw [List.take_append_of_le_length (by omega), List.take_left] at h1
      exact h1
    have hdropeq : CONFLICT_SUFFIX.drop (stem.drop i).length ++ t = CONFLICT_SUFFIX ++ tail := by
      have h1 := congrArg (List.drop (stem.drop i).length) htail
      rw [List.drop_append_of_le_length (by omega), List.drop_left] at h1
      exact h1
    have hpref : CONFLICT_SUFFIX.drop (stem.drop i).length <+: CONFLICT_SUFFIX :=
      List.prefix_of_prefix_length_le ⟨t, hdropeq⟩
        (List.prefix_append CONFLICT_SUFFIX tail)
        (by rw [List.length_drop]; omega)
    have h3 : (CONFLICT_SUFFIX.drop ((stem.drop i).length)).length
        = 15 - (stem.drop i).length := by
      rw [List.length_drop, hslen]
    have heq : CONFLICT_SUFFIX.drop (stem.drop i).length =
        CONFLICT_SUFFIX.take (15 - (stem.drop i).length) := by
      have h2 := List.prefix_iff_eq_take.mp hpref
      rwa [h3] at h2
    exact conflict_suffix_no_overlap (stem.drop i).length (by omega) hkpos heq

/-- C6 counterexample: an original path with no extension does not round-trip:
the generated conflict name for "test" is "test.sync-conflict-abcdefgh0",
whose reconstructed original is the conflict name itself comma not "test". -/
theorem conflict_roundtrip_counterexample :
    (str "abcdefgh").length ≥ 8 ∧
    get_original_path (generate_conflict_path (str "test") (str "abcdefgh") 0)
      ≠ some (str "test") :=
  ⟨by decide, by decide⟩

/-- C6 (amended): the round-trip
`get_original_path (generate_conflict_path p d ts) = p` holds for every
device id of length at least 8 and every original file name that has an
extension and whose stem does not contain `.sync-conflict-`; it fails for
extensionless names (see the counterexample). -/
theorem conflict_roundtrip (stem ext device_id : RStr) (timestamp : Nat)
    (hstem_ne : stem ≠ []) (hext : 46 ∉ ext)
    (hmark : findSub CONFLICT_SUFFIX stem = none)
    (hdev : device_id.length ≥ 8) :
    get_original_path (generate_conflict_path (stem ++ 46 :: ext) device_id timestamp)
      = some (stem ++ 46 :: ext) := by
  have hslen : CONFLICT_SUFFIX.length = 15 := by decide
  have hshape : generate_conflict_path (stem ++ 46 :: ext) device_id timestamp
      = stem ++ (CONFLICT_SUFFIX ++
          (device_id.take 8 ++ (str (Nat.repr timestamp) ++ (46 :: ext)))) := by
    unfold generate_conflict_path
    rw [fileStem_append _ _ hstem_ne hext, fileExtension_append _ _ hstem_ne hext]
    simp [List.append_assoc]
  rw [hshape]
  have hfind : findSub CONFLICT_SUFFIX
      (stem ++ (CONFLICT_SUFFIX ++
        (device_id.take 8 ++ (str (Nat.repr timestamp) ++ (46 :: ext)))))
      = some stem.length :=
    findSub_append
      (List.isPrefixOf_iff_prefix.mpr (List.prefix_append _ _))
      (no_early_occurrence stem _ hmark)
  have hA_ne : stem ++ CONFLICT_SUFFIX ++ device_id.take 8 ++ str (Nat.repr timestamp) ≠ [] := by
    intro hcontra
    have := congrArg List.length hcontra
    simp [hslen] at this
  have hext2 : fileExtension
      (stem ++ (CONFLICT_SUFFIX ++
        (device_id.take 8 ++ (str (Nat.repr timestamp) ++ (46 :: ext)))))
      = some ext := by
    have hre : stem ++ (CONFLICT_SUFFIX ++
        (device_id.take 8 ++ (str (Nat.repr timestamp) ++ (46 :: ext))))
        = (stem ++ CONFLICT_SUFFIX ++ device_id.take 8 ++ str (Nat.repr timestamp))
          ++ 46 :: ext := by
      simp [List.append_assoc]
    rw [hre]
    exact fileExtension_append _ _ hA_ne hext
  unfold get_original_path
  have htake : (stem ++ (CONFLICT_SUFFIX ++
      (device_id.take 8 ++ (str (Nat.repr timestamp) ++ (46 :: ext))))).take stem.length
      = stem := List.take_left stem _
  simp only [hfind, hext2, htake]

theorem conflict_roundtrip_witness :
    get_original_path
      (generate_conflict_path (str "test" ++ 46 :: str "md") (str "abcdefghij") 5)
      = some (str "test" ++ 46 :: str "md") :=
  conflict_roundtrip (str "test") (str "md") (str "abcdefghij") 5
    (by decide) (by decide) (by decide) (by decide)

/-! ### StateStore (src/src-tauri/src/sync/state.rs)

The three HashMaps behind the `RwLock`s are modelled as association
lists; `insertA`/`eraseA` model `HashMap::insert`/`remove` (the lock,
dirty flag and JSON persistence do not affect the mapping contents). -/

/-- types.rs `VaultSyncState`. -/
inductive VaultSyncState where
  | Idle | Syncing | Error | Disabled
  deriving DecidableEq, Repr

/-- state.rs `VaultState`. -/
structure VaultState where
  vault_id : RStr
  vault_path : RStr
  enabled : Bool
  last_cursor : Option RStr
  last_sync_at : Option Nat
  status : VaultSyncState
  last_error : Option RStr
  deriving DecidableEq, Repr

/-- state.rs `VaultState::new`. -/
def VaultState.new (vault_id vault_path : RStr) : VaultState :=
  { vault_id := vault_id, vault_path := vault_path, enabled := false,
    last_cursor := none, last_sync_at := none, status := .Disabled,
    last_error := none }

/-- state.rs `FileSyncState`. -/
structure FileSyncState where
  relative_path : RStr
  local_hash : Option RStr
  remote_hash : Option RStr
  remote_version : Option Nat
  last_synced_at : Option Nat
  deriving DecidableEq, Repr

/-- `HashMap::insert` on an association list: the new binding replaces any
existing binding of the same key. -/
def insertA {α : Type} (l : List (RStr × α)) (k : RStr) (v : α) : List (RStr × α) :=
  (k, v) :: l.filter (fun p => decide (p.1 ≠ k))

/-- `HashMap::remove` on an association list. -/
def eraseA {α : Type} (l : List (RStr × α)) (k : RStr) : List (RStr × α) :=
  l.filter (fun p => decide (p.1 ≠ k))

/-- The in-memory maps of `SyncStateManager` (vault-key cache omitted:
no claim concerns it). -/
structure StoreState where
  vaults : List (RStr × VaultState)
  file_states : List (RStr × List (RStr × FileSyncState))
  path_to_vault_id : List (RStr × RStr)
  deriving DecidableEq, Repr

/-- The store right after `SyncStateManager::new` with no persisted file. -/
def StoreState.empty : StoreState := ⟨[], [], []⟩

/-- state.rs `get_vault_id_for_path`. -/
def get_vault_id_for_path (s : StoreState) (vault_path : RStr) : Option RStr :=
  lookupA s.path_to_vault_id vault_path

/-- state.rs `register_path_mapping`. -/
def register_path_mapping (s : StoreState) (vault_path vault_id : RStr) : StoreState :=
  { s with path_to_vault_id := insertA s.path_to_vault_id vault_path vault_id }

/-- state.rs `update_vault_path`: drop the old path binding, retarget the
vault state, add the new binding. -/
def update_vault_path (s : StoreState) (vault_id new_path : RStr) : StoreState :=
  let old_path := (lookupA s.vaults vault_id).map (fun v => v.vault_path)
  let s1 := match old_path with
    | some old => { s with path_to_vault_id := eraseA s.path_to_vault_id old }
    | none => s
  let s2 := { s1 with vaults :=
      (match lookupA s1.vaults vault_id with
       | some st => insertA s1.vaults vault_id { st with vault_path := new_path }
       | none => s1.vaults) }
  { s2 with path_to_vault_id := insertA s2.path_to_vault_id new_path vault_id }

/-- state.rs `set_vault_state`. -/
def set_vault_state (s : StoreState) (state : VaultState) : StoreState :=
  let s1 := register_path_mapping s state.vault_path state.vault_id
  { s1 with vaults := insertA s1.vaults state.vault_id state }

/-- state.rs `enable_vault`: `entry().or_insert_with(VaultState::new)`,
then set path/enabled/Idle, then register the path mapping. -/
def enable_vault (s : StoreState) (vault_path vault_id : RStr) : StoreState :=
  let base := match lookupA s.vaults vault_id with
    | some st => st
    | none => VaultState.new vault_id vault_path
  let st := { base with vault_path := vault_path, enabled := true, status := VaultSyncState.Idle }
  register_path_mapping { s with vaults := insertA s.vaults vault_id st }
    vault_path vault_id

/-- state.rs `disable_vault_by_id`. -/
def disable_vault_by_id (s : StoreState) (vault_id : RStr) : StoreState :=
  { s with vaults :=
      (match lookupA s.vaults vault_id with
       | some st => insertA s.vaults vault_id
           { st with enabled := false, status := VaultSyncState.Disabled }
       | none => s.vaults) }

/-- state.rs `disable_vault`. -/
def disable_vault (s : StoreState) (vault_path : RStr) : StoreState :=
  match get_vault_id_for_path s vault_path with
  | some id => disable_vault_by_id s id
  | none => s

/-- state.rs `remove_vault_by_id`. -/
def remove_vault_by_id (s : StoreState) (vault_id : RStr) : StoreState :=
  let vault_path := (lookupA s.vaults vault_id).map (fun v => v.vault_path)
  let s1 := { s with vaults := eraseA s.vaults vault_id,
                     file_states := eraseA s.file_states vault_id }
  match vault_path with
  | some p => { s1 with path_to_vault_id := eraseA s1.path_to_vault_id p }
  | none => s1

/-- state.rs `remove_vault`. -/
def remove_vault (s : StoreState) (vault_path : RStr) : StoreState :=
  let s1 := match get_vault_id_for_path s vault_path with
    | some id => remove_vault_by_id s id
    | none => s
  { s1 with path_to_vault_id := eraseA s1.path_to_vault_id vault_path }

/-- state.rs `get_file_state_by_id`. -/
def get_file_state_by_id (s : StoreState) (vault_id relative_path : RStr) :
    Option FileSyncState :=
  (lookupA s.file_states vault_id).bind (fun files => lookupA files relative_path)

/-- state.rs `set_file_state_by_id`: `entry().or_insert_with(HashMap::new)`
then insert keyed by the state's `relative_path`. -/
def set_file_state_by_id (s : StoreState) (vault_id : RStr) (state : FileSyncState) :
    StoreState :=
  let files := match lookupA s.file_states vault_id with
    | some fs => fs
    | none => []
  { s with file_states :=
      insertA s.file_states vault_id (insertA files state.relative_path state) }

/-- state.rs `remove_file_state_by_id`. -/
def remove_file_state_by_id (s : StoreState) (vault_id relative_path : RStr) : StoreState :=
  { s with file_states :=
      (match lookupA s.file_states vault_id with
       | some fs => insertA s.file_states vault_id (eraseA fs relative_path)
       | none => s.file_states) }

/-- state.rs `mark_synced_by_id`; `now` is the clock value read inside. -/
def mark_synced_by_id (s : StoreState) (vault_id relative_path hash : RStr)
    (version : Nat) (now : Nat) : StoreState :=
  set_file_state_by_id s vault_id
    { relative_path := relative_path, local_hash := some hash,
      remote_hash := some hash, remote_version := some version,
      last_synced_at := some now }

theorem lookupA_insertA_self {α : Type} (l : List (RStr × α)) (k : RStr) (v : α) :
    lookupA (insertA l k v) k = some v := by
  simp [insertA, lookupA]

theorem lookupA_insertA_ne {α : Type} (l : List (RStr × α)) (k p : RStr) (v : α)
    (h : k ≠ p) : lookupA (insertA l k v) p = lookupA l p := by
  simp only [insertA, lookupA, if_neg h]
  induction l with
  | nil => simp [lookupA]
  | cons hd tl ih =>
    by_cases hk : hd.1 = k
    · rw [show (hd :: tl).filter (fun q => decide (q.1 ≠ k)) = tl.filter (fun q => decide (q.1 ≠ k)) by
        simp [List.filter, hk]]
      rw [ih]
      have hne : hd.1 ≠ p := by rw [hk]; exact h
      cases hd with
      | mk k1 v1 => simp only [lookupA, if_neg hne]
    · rw [show (hd :: tl).filter (fun q => decide (q.1 ≠ k)) = hd :: tl.filter (fun q => decide (q.1 ≠ k)) by
        simp [List.filter, hk]]
      cases hd with
      | mk k1 v1 =>
        by_cases hp : k1 = p
        · simp [lookupA, hp]
        · simp only [lookupA, if_neg hp]
          exact ih

/-- C10: every `FileSyncState` written by `mark_synced_by_id` records
`local_hash == remote_hash`, both equal to the single hash argument, with
`remote_version` and `last_synced_at` set. -/
theorem mark_synced_spec (s : StoreState) (vault_id relative_path hash : RStr)
    (version now : Nat) :
    ∃ fs, get_file_state_by_id
        (mark_synced_by_id s vault_id relative_path hash version now)
        vault_id relative_path = some fs ∧
      fs.local_hash = some hash ∧ fs.remote_hash = some hash ∧
      fs.local_hash = fs.remote_hash ∧
      fs.remote_version = some version ∧ fs.last_synced_at = some now := by
  have heq : get_file_state_by_id
      (mark_synced_by_id s vault_id relative_path hash version now)
      vault_id relative_path
      = some { relative_path := relative_path, local_hash := some hash,
               remote_hash := some hash, remote_version := some version,
               last_synced_at := some now } := by
    unfold mark_synced_by_id set_file_state_by_id get_file_state_by_id
    rw [lookupA_insertA_self]
    simp only [Option.some_bind]
    exact lookupA_insertA_self _ _ _
  exact ⟨_, heq, rfl, rfl, rfl, rfl, rfl⟩

/-- One mutating call through the public API of the store. -/
inductive StoreOp where
  | enable (vault_path vault_id : RStr)
  | setState (state : VaultState)
  | updatePath (vault_id new_path : RStr)
  | disable (vault_path : RStr)
  | remove (vault_path : RStr)
  | setFile (vault_id : RStr) (state : FileSyncState)
  | removeFile (vault_id relative_path : RStr)
  | markSynced (vault_id relative_path hash : RStr) (version now : Nat)

/-- Apply one store operation. -/
def applyOp (s : StoreState) : StoreOp → StoreState
  | .enable p id => enable_vault s p id
  | .setState st => set_vault_state s st
  | .updatePath id p => update_vault_path s id p
  | .disable p => disable_vault s p
  | .remove p => remove_vault s p
  | .setFile id st => set_file_state_by_id s id st
  | .removeFile id rp => remove_file_state_by_id s id rp
  | .markSynced id rp h v n => mark_synced_by_id s id rp h v n

/-- The store states reachable from a fresh store. -/
def runOps (ops : List StoreOp) : StoreState :=
  ops.foldl applyOp StoreState.empty

/-- Injectivity half of the claimed path-map bijection: no two distinct
paths map to the same vault id. -/
def pathMapInjective (s : StoreState) : Prop :=
  ∀ p q id, lookupA s.path_to_vault_id p = some id →
    lookupA s.path_to_vault_id q = some id → p = q

/-- C7 counterexample: enabling the same vault from a second path keeps the
old path binding (`enable_vault` never removes it), so two distinct paths
map to the same vault id and the path-map is not bijective. -/
theorem vault_path_bijection_counterexample :
    ¬ pathMapInjective
        (runOps [StoreOp.enable (str "/a") (str "v1"),
                 StoreOp.enable (str "/b") (str "v1")]) := by
  intro h
  have h2 := h (str "/a") (str "/b") (str "v1") (by decide) (by decide)
  exact absurd h2 (by decide)

/-- The keyed-consistency invariant the code does maintain: one `VaultState`
per vault id, each entry carrying its key, and each path bound to at most
one vault id. -/
def StoreInv (s : StoreState) : Prop :=
  (s.vaults.map (fun pr => pr.1)).Nodup ∧
  (∀ pr ∈ s.vaults, pr.2.vault_id = pr.1) ∧
  (s.path_to_vault_id.map (fun pr => pr.1)).Nodup

theorem lookupA_mem {α : Type} {l : List (RStr × α)} {k : RStr} {v : α}
    (h : lookupA l k = some v) : (k, v) ∈ l := by
  induction l with
  | nil => exact Option.noConfusion h
  | cons hd tl ih =>
    cases hd with
    | mk k2 v2 =>
      unfold lookupA at h
      split_ifs at h with he
      · have hv := Option.some.inj h
        subst he; subst hv
        exact List.mem_cons_self _ _
      · exact List.mem_cons_of_mem _ (ih h)

theorem mem_insertA {α : Type} {l : List (RStr × α)} {k : RStr} {v : α}
    {pr : RStr × α} (h : pr ∈ insertA l k v) : pr = (k, v) ∨ pr ∈ l := by
  unfold insertA at h
  rcases List.mem_cons.mp h with h2 | h2
  · exact Or.inl h2
  · exact Or.inr (List.mem_of_mem_filter h2)

theorem nodup_keys_insertA {α : Type} (l : List (RStr × α)) (k : RStr) (v : α)
    (h : (l.map (fun pr => pr.1)).Nodup) :
    ((insertA l k v).map (fun pr => pr.1)).Nodup := by
  unfold insertA
  simp only [List.map_cons, List.nodup_cons]
  refine ⟨?_, ?_⟩
  · intro hmem
    obtain ⟨pr, hpr, hfst⟩ := List.mem_map.mp hmem
    have hne := List.of_mem_filter hpr
    simp only [decide_eq_true_eq] at hne
    exact hne hfst
  · exact List.Nodup.sublist (List.Sublist.map _ (List.filter_sublist l)) h

theorem nodup_keys_eraseA {α : Type} (l : List (RStr × α)) (k : RStr)
    (h : (l.map (fun pr => pr.1)).Nodup) :
    ((eraseA l k).map (fun pr => pr.1)).Nodup :=
  List.Nodup.sublist (List.Sublist.map _ (List.filter_sublist l)) h

theorem applyOp_preserves (s : StoreState) (op : StoreOp) (h : StoreInv s) :
    StoreInv (applyOp s op) := by
  obtain ⟨h1, h2, h3⟩ := h
  cases op with
  | enable p id =>
    show StoreInv (enable_vault s p id)
    cases hb : lookupA s.vaults id with
    | none =>
      unfold enable_vault register_path_mapping
      simp only [hb]
      refine ⟨nodup_keys_insertA _ _ _ h1, ?_, nodup_keys_insertA _ _ _ h3⟩
      intro pr hpr
      rcases mem_insertA hpr with rfl | hpr2
      · rfl
      · exact h2 _ hpr2
    | some st0 =>
      unfold enable_vault register_path_mapping
      simp only [hb]
      refine ⟨nodup_keys_insertA _ _ _ h1, ?_, nodup_keys_insertA _ _ _ h3⟩
      intro pr hpr
      rcases mem_insertA hpr with rfl | hpr2
      · simpa using h2 _ (lookupA_mem hb)
      · exact h2 _ hpr2
  | setState st =>
    show StoreInv (set_vault_state s st)
    unfold set_vault_state register_path_mapping
    refine ⟨nodup_keys_insertA _ _ _ h1, ?_, nodup_keys_insertA _ _ _ h3⟩
    intro pr hpr
    rcases mem_insertA hpr with rfl | hpr2
    · rfl
    · exact h2 _ hpr2
  | updatePath id p =>
    show StoreInv (update_vault_path s id p)
    cases hb : lookupA s.vaults id with
    | none =>
      unfold update_vault_path
      simp only [hb, Option.map_none']
      refine ⟨h1, h2, nodup_keys_insertA _ _ _ h3⟩
    | some st0 =>
      unfold update_vault_path
      simp only [hb, Option.map_some']
      refine ⟨nodup_keys_insertA _ _ _ h1, ?_,
        nodup_keys_insertA _ _ _ (nodup_keys_eraseA _ _ h3)⟩
      intro pr hpr
      rcases mem_insertA hpr with rfl | hpr2
      · simpa using h2 _ (lookupA_mem hb)
      · exact h2 _ hpr2
  | disable p =>
    show StoreInv (disable_vault s p)
    unfold disable_vault get_vault_id_for_path
    cases hid : lookupA s.path_to_vault_id p with
    | none => exact ⟨h1, h2, h3⟩
    | some id =>
      unfold disable_vault_by_id
      cases hb : lookupA s.vaults id with
      | none =>
        simp only [hb]
        exact ⟨h1, h2, h3⟩
      | some st0 =>
        simp only [hb]
        refine ⟨nodup_keys_insertA _ _ _ h1, ?_, h3⟩
        intro pr hpr
        rcases mem_insertA hpr with rfl | hpr2
        · simpa using h2 _ (lookupA_mem hb)
        · exact h2 _ hpr2
  | remove p =>
    show StoreInv (remove_vault s p)
    unfold remove_vault get_vault_id_for_path
    cases hid : lookupA s.path_to_vault_id p with
    | none =>
      simp only [hid]
      exact ⟨h1, h2, nodup_keys_eraseA _ _ h3⟩
    | some id =>
      simp only [hid]
      unfold remove_vault_by_id
      cases hb : lookupA s.vaults id with
      | none =>
        simp only [hb, Option.map_none']
        exact ⟨nodup_keys_eraseA _ _ h1,
          fun pr hpr => h2 _ (List.mem_of_mem_filter hpr),
          nodup_keys_eraseA _ _ h3⟩
      | some st0 =>
        simp only [hb, Option.map_some']
        exact ⟨nodup_keys_eraseA _ _ h1,
          fun pr hpr => h2 _ (List.mem_of_mem_filter hpr),
          nodup_keys_eraseA _ _ (nodup_keys_eraseA _ _ h3)⟩
  | setFile id st => exact ⟨h1, h2, h3⟩
  | removeFile id rp => exact ⟨h1, h2, h3⟩
  | markSynced id rp hs v n => exact ⟨h1, h2, h3⟩

/-- C7 (amended): in every reachable store state the vaults map has at most
one `VaultState` per vault id, each entry carries its key as `vault_id`,
and each path maps to at most one vault id.  Full path-map bijectivity
fails: `enable_vault` at a new path for an existing vault leaves the old
binding in place (see the counterexample). -/
theorem store_invariant : ∀ ops : List StoreOp, StoreInv (runOps ops) := by
  have hstep : ∀ (ops : List StoreOp) (s : StoreState), StoreInv s →
      StoreInv (List.foldl applyOp s ops) := by
    intro ops
    induction ops with
    | nil => intro s hs; exact hs
    | cons op rest ih =>
      intro s hs
      exact ih _ (applyOp_preserves s op hs)
  intro ops
  exact hstep ops StoreState.empty (by refine ⟨?_, ?_, ?_⟩ <;> simp [StoreState.empty])

/-! ### Pending-change counting (state.rs `count_pending_changes` versus a
`detect_changes` diff over the same data) -/

/-- state.rs `count_pending_changes`, its diff core: the vault is enabled
and `scan_vault` succeeded with `scan`; `stored` is the per-file state map
of the vault.  The first loop counts scanned files that are new or whose
`local_hash` differs; the second counts stored entries absent on disk. -/
def count_pending_changes (scan : ScanResult) (stored : List (RStr × FileSyncState)) : Nat :=
  (scan.files.filter (fun pi =>
    match lookupA stored pi.1 with
    | some st => decide (st.local_hash ≠ some pi.2.content_hash)
    | none => true)).length
  + (stored.filter (fun pr => (lookupA scan.files pr.1).isNone)).length

/-- engine.rs `get_local_changes` builds the `previous` map handed to
`detect_changes` from the stored file states: only entries carrying a
`local_hash`, keyed by their `relative_path` field. -/
def previous_of_states (stored : List (RStr × FileSyncState)) : List (RStr × RStr) :=
  stored.filterMap (fun pr => pr.2.local_hash.map (fun h => (pr.2.relative_path, h)))

/-- An empty snapshot. -/
def emptyScan : ScanResult := { files := [], total_size := 0, file_count := 0 }

/-- A single stored file state with no `local_hash` (as a deserialized or
hand-written state may carry). -/
def tombstoneStored : List (RStr × FileSyncState) :=
  [(str "a.md",
    { relative_path := str "a.md", local_hash := none, remote_hash := some (str "h"),
      remote_version := some 1, last_synced_at := some 0 })]

/-- C8 counterexample: a stored state without `local_hash` whose file is
absent from disk is counted by `count_pending_changes` but invisible to
`detect_changes` (its path never enters the `previous` map), so the two
counts differ. -/
theorem count_pending_counterexample :
    count_pending_changes emptyScan tombstoneStored = 1 ∧
    (detect_changes emptyScan (previous_of_states tombstoneStored)).changed.length
      + (detect_changes emptyScan (previous_of_states tombstoneStored)).deleted.length
      = 0 :=
  ⟨by decide, by decide⟩

theorem previous_lookup (stored : List (RStr × FileSyncState))
    (hkeys : ∀ pr ∈ stored, pr.2.relative_path = pr.1)
    (hsome : ∀ pr ∈ stored, pr.2.local_hash.isSome = true) (p : RStr) :
    lookupA (previous_of_states stored) p
      = (lookupA stored p).bind (fun st => st.local_hash) := by
  induction stored with
  | nil => rfl
  | cons hd tl ih =>
    obtain ⟨k, st⟩ := hd
    have hk : st.relative_path = k := hkeys (k, st) (List.mem_cons_self _ _)
    obtain ⟨hh, hhs⟩ :=
      Option.isSome_iff_exists.mp (hsome (k, st) (List.mem_cons_self _ _))
    have hhs2 : st.local_hash = some hh := hhs
    have hstep : previous_of_states ((k, st) :: tl)
        = (k, hh) :: previous_of_states tl := by
      unfold previous_of_states
      rw [List.filterMap_cons]
      simp [hhs2, hk]
    rw [hstep]
    by_cases hp : k = p
    · subst hp
      simp [lookupA, hhs2]
    · simp only [lookupA, if_neg hp]
      exact ih (fun pr hpr => hkeys pr (List.mem_cons_of_mem _ hpr))
        (fun pr hpr => hsome pr (List.mem_cons_of_mem _ hpr))

theorem previous_keys (stored : List (RStr × FileSyncState))
    (hkeys : ∀ pr ∈ stored, pr.2.relative_path = pr.1)
    (hsome : ∀ pr ∈ stored, pr.2.local_hash.isSome = true) :
    (previous_of_states stored).map (fun pr => pr.1)
      = stored.map (fun pr => pr.1) := by
  induction stored with
  | nil => rfl
  | cons hd tl ih =>
    obtain ⟨k, st⟩ := hd
    have hk : st.relative_path = k := hkeys (k, st) (List.mem_cons_self _ _)
    obtain ⟨hh, hhs⟩ :=
      Option.isSome_iff_exists.mp (hsome (k, st) (List.mem_cons_self _ _))
    have hhs2 : st.local_hash = some hh := hhs
    have hstep : previous_of_states ((k, st) :: tl)
        = (k, hh) :: previous_of_states tl := by
      unfold previous_of_states
      rw [List.filterMap_cons]
      simp [hhs2, hk]
    rw [hstep]
    simp only [List.map_cons]
    rw [ih (fun pr hpr => hkeys pr (List.mem_cons_of_mem _ hpr))
        (fun pr hpr => hsome pr (List.mem_cons_of_mem _ hpr))]

theorem length_filter_map_key {α β : Type} (f : α → β) (q : β → Bool) (l : List α) :
    ((l.map f).filter q).length = (l.filter (fun a => q (f a))).length := by
  induction l with
  | nil => rfl
  | cons hd tl ih =>
    cases hq : q (f hd) <;> simp [List.filter_cons, hq, ih]

/-- C8 (amended): `count_pending_changes` equals the number of changed plus
deleted entries a `detect_changes` over the same snapshot and stored
states would emit, provided every stored state carries a `local_hash` and
is keyed by its `relative_path` (both hold for every state written by
`mark_synced`); a stored state with no `local_hash` breaks the equality
(see the counterexample). -/
theorem count_pending_changes_eq (scan : ScanResult)
    (stored : List (RStr × FileSyncState))
    (hkeys : ∀ pr ∈ stored, pr.2.relative_path = pr.1)
    (hsome : ∀ pr ∈ stored, pr.2.local_hash.isSome = true) :
    count_pending_changes scan stored
      = (detect_changes scan (previous_of_states stored)).changed.length
        + (detect_changes scan (previous_of_states stored)).deleted.length := by
  unfold count_pending_changes detect_changes
  simp only [List.length_map]
  have hfilter : scan.files.filter (fun pi =>
        match lookupA stored pi.1 with
        | some st => decide (st.local_hash ≠ some pi.2.content_hash)
        | none => true)
      = scan.files.filter (fun pi =>
        match lookupA (previous_of_states stored) pi.1 with
        | some prev_hash => decide (prev_hash ≠ pi.2.content_hash)
        | none => true) := by
    apply List.filter_congr
    intro pi hpi
    rw [previous_lookup stored hkeys hsome pi.1]
    cases hl : lookupA stored pi.1 with
    | none => simp
    | some st =>
      obtain ⟨hh, hhs⟩ :=
        Option.isSome_iff_exists.mp (hsome _ (lookupA_mem hl))
      have hhs2 : st.local_hash = some hh := hhs
      simp [hhs2]
  rw [hfilter, previous_keys stored hkeys hsome,
    length_filter_map_key (fun pr => pr.1)
      (fun path => (lookupA scan.files path).isNone) stored]

/-- A snapshot and a well-formed stored map for the witness. -/
def scanEx : ScanResult :=
  { files := [(str "a.md",
      { relative_path := str "a.md", content_hash := str "h2",
        size_bytes := 1, modified_at := 2 })],
    total_size := 1, file_count := 1 }

/-- A stored map as `mark_synced` writes it. -/
def storedEx : List (RStr × FileSyncState) :=
  [(str "a.md",
    { relative_path := str "a.md", local_hash := some (str "h1"),
      remote_hash := some (str "h1"), remote_version := some 1,
      last_synced_at := some 0 })]

theorem count_pending_changes_eq_witness :
    count_pending_changes scanEx storedEx
      = (detect_changes scanEx (previous_of_states storedEx)).changed.length
        + (detect_changes scanEx (previous_of_states storedEx)).deleted.length :=
  count_pending_changes_eq scanEx storedEx (by decide) (by decide)

/-! ### Engine (src/src-tauri/src/sync/engine.rs)

The engine's effects are modelled explicitly: the local filesystem is an
association list from relative path to content bytes, the store is a
`StoreState`, and the HTTP transport, the BLAKE3 hash and the clock are
inputs in a `SyncEnv`.  Each pull request's outcome (network failure,
non-2xx, JSON failure, or a `PullResponse`) is one element of
`pullReplies`, consumed in order. -/

/-- The local files of the vault: relative path to content bytes. -/
abbrev Fs := List (RStr × RStr)

/-- engine.rs `RemoteChange` (the engine's own struct: a string operation
and a signed version). -/
structure RemoteChange where
  id : RStr
  encrypted_path : RStr
  operation : RStr
  content_hash : RStr
  size : Nat
  modified_at : Nat
  version : Int
  download_url : Option RStr
  deriving DecidableEq, Repr

/-- engine.rs `PullResponse`. -/
structure PullResponse where
  changes : List RemoteChange
  next_cursor : RStr
  has_more : Bool
  deriving DecidableEq, Repr

/-- engine.rs `PushResult`. -/
structure PushResult where
  encrypted_path : RStr
  status : RStr
  upload_url : Option RStr
  new_version : Option Int
  file_id : Option RStr
  error : Option RStr
  deriving DecidableEq, Repr

/-- engine.rs `PushResponse` (the `conflicts` payloads are opaque JSON). -/
structure PushResponse where
  results : List PushResult
  conflicts : List RStr
  deriving DecidableEq, Repr

/-- types.rs `ConflictInfo`. -/
structure ConflictInfo where
  original_path : RStr
  conflict_path : RStr
  local_modified_at : Nat
  remote_modified_at : Nat
  created_at : Nat
  deriving DecidableEq, Repr

/-- types.rs `SyncOperationResult`. -/
structure SyncOperationResult where
  success : Bool
  files_uploaded : Nat
  files_downloaded : Nat
  files_deleted : Nat
  conflicts : List ConflictInfo
  errors : List RStr
  duration_ms : Nat
  deriving DecidableEq, Repr

/-- The entry built for each changed/deleted file in the push batch
(the `serde_json::json!` object of `push_changes_incremental`). -/
structure PushChange where
  encrypted_path : RStr
  operation : RStr
  content_hash : RStr
  size : Nat
  modified_at : Nat
  base_version : Option Nat
  deriving DecidableEq, Repr

/-- engine.rs `SyncEngine` configuration; `has_state_manager` models
whether `state_manager` is `Some` (the store contents are threaded
separately as a `StoreState`). -/
structure SyncEngine where
  server_url : RStr
  access_token : RStr
  vault_id : RStr
  vault_path : RStr
  additive_only : Bool
  has_state_manager : Bool
  deriving DecidableEq, Repr

/-- The environment of a sync cycle: scan outcomes, the server's pull and
push replies, the presigned transfers, the BLAKE3 hash and the clock. -/
structure SyncEnv where
  scan1 : Except SyncError ScanResult
  scan2 : Except SyncError ScanResult
  pullReplies : List (Except SyncError PullResponse)
  download : RStr → Except SyncError RStr
  pushReply : Except SyncError PushResponse
  upload : RStr → Except SyncError Unit
  hash : RStr → RStr
  time : Nat
  duration_ms : Nat

/-- Rust `as u32` on an `i32`: two's-complement wrap into `0..2^32`. -/
def intAsU32 (v : Int) : Nat := (v % 4294967296).toNat

/-- engine.rs URL joining: a download/upload URL starting with a slash is
relative and is prefixed with the server URL. -/
def join_server_url (server_url url : RStr) : RStr :=
  match url with
  | 47 :: _ => server_url ++ url
  | _ => url

/-- engine.rs `SyncEngine::apply_remote_change`: returns the per-change
outcome together with the filesystem and store after the call. -/
def apply_remote_change (eng : SyncEngine) (env : SyncEnv) (fs : Fs)
    (store : StoreState) (change : RemoteChange) :
    Except SyncError Unit × Fs × StoreState :=
  match decode_path change.encrypted_path with
  | .error e => (.error e, fs, store)
  | .ok relative_path =>
    if change.operation = str "delete" then
      if eng.additive_only = true then (.ok (), fs, store)
      else
        let fs2 := eraseA fs relative_path
        let store2 := if eng.has_state_manager = true then
            remove_file_state_by_id store eng.vault_id relative_path
          else store
        (.ok (), fs2, store2)
    else if change.operation = str "create" ∨ change.operation = str "update" then
      if eng.additive_only = true ∧ (lookupA fs relative_path).isSome = true then
        let store2 := if eng.has_state_manager = true then
            (match lookupA fs relative_path with
             | some local_content =>
                 mark_synced_by_id store eng.vault_id relative_path
                   (env.hash local_content) (intAsU32 change.version) env.time
             | none => store)
          else store
        (.ok (), fs, store2)
      else
        match change.download_url with
        | none =>
          (.error (.InvalidData (str "File '" ++ relative_path ++
            str "' has no download URL - content not available on server")), fs, store)
        | some url =>
          match env.download (join_server_url eng.server_url url) with
          | .error e => (.error e, fs, store)
          | .ok content =>
            let hash := env.hash content
            if hash ≠ change.content_hash then
              (.error (.InvalidData (str "Downloaded file hash mismatch")), fs, store)
            else
              let fs2 := insertA fs relative_path content
              let store2 := if eng.has_state_manager = true then
                  mark_synced_by_id store eng.vault_id relative_path hash
                    (intAsU32 change.version) env.time
                else store
              (.ok (), fs2, store2)
    else
      (.error (.InvalidData (str "Unknown operation: " ++ change.operation)), fs, store)

/-- The per-change loop of `pull_changes`: a failed change is only logged;
`downloaded` counts the successful ones. -/
def process_remote_changes (eng : SyncEngine) (env : SyncEnv) (fs : Fs)
    (store : StoreState) : List RemoteChange → Nat × Fs × StoreState
  | [] => (0, fs, store)
  | c :: rest =>
    let r1 := apply_remote_change eng env fs store c
    let r2 := process_remote_changes eng env r1.2.1 r1.2.2 rest
    match r1.1 with
    | .ok _ => (r2.1 + 1, r2.2.1, r2.2.2)
    | .error _ => r2

/-- engine.rs `SyncEngine::pull_changes`: request batches until
`has_more` is false; an endpoint failure aborts the phase (the running
count is lost) but changes already applied remain. -/
def pull_changes (eng : SyncEngine) (env : SyncEnv) (fs : Fs) (store : StoreState) :
    List (Except SyncError PullResponse) → Except SyncError Nat × Fs × StoreState
  | [] => (.error (.Network (str "no response")), fs, store)
  | reply :: rest =>
    match reply with
    | .error e => (.error e, fs, store)
    | .ok resp =>
      let r1 := process_remote_changes eng env fs store resp.changes
      if resp.has_more then
        match pull_changes eng env r1.2.1 r1.2.2 rest with
        | (.ok m, fs2, store2) => (.ok (r1.1 + m), fs2, store2)
        | (.error e, fs2, store2) => (.error e, fs2, store2)
      else (.ok r1.1, r1.2.1, r1.2.2)

/-- engine.rs `SyncEngine::get_local_changes`. -/
def get_local_changes (eng : SyncEngine) (store : StoreState) (scan : ScanResult) :
    ChangeSet :=
  if eng.has_state_manager = true then
    let file_states := match lookupA store.file_states eng.vault_id with
      | some fs => fs
      | none => []
    detect_changes scan (previous_of_states file_states)
  else
    { changed := scan.files.map (fun pi => pi.2), deleted := [] }

/-- The `base_version` lookup of `push_changes_incremental`. -/
def engine_base_version (eng : SyncEngine) (store : StoreState) (path : RStr) :
    Option Nat :=
  if eng.has_state_manager = true then
    (get_file_state_by_id store eng.vault_id path).bind (fun fs => fs.remote_version)
  else none

/-- The push batch built by `push_changes_incremental`: changed files
(`update` when a remote version is stored, else `create`) and deletes. -/
def build_push_changes (eng : SyncEngine) (store : StoreState) (cs : ChangeSet) :
    List PushChange :=
  cs.changed.map (fun info =>
    let base_version := engine_base_version eng store info.relative_path
    { encrypted_path := encode_path info.relative_path,
      operation := if base_version.isSome = true then str "update" else str "create",
      content_hash := info.content_hash, size := info.size_bytes,
      modified_at := info.modified_at, base_version := base_version })
  ++ cs.deleted.map (fun path =>
    { encrypted_path := encode_path path, operation := str "delete",
      content_hash := [], size := 0, modified_at := 0,
      base_version := engine_base_version eng store path })

/-- The per-result loop of `push_changes_incremental`: accepted results
with an upload URL read the file, upload it and mark it synced (a missing
file or failed upload is only logged); accepted results without an upload
URL are delete confirmations; a decode failure propagates. -/
def process_push_results (eng : SyncEngine) (env : SyncEnv) (fs : Fs)
    (store : StoreState) : List PushResult → Except SyncError (Nat × Nat) × StoreState
  | [] => (.ok (0, 0), store)
  | r :: rest =>
    if r.status = str "accepted" then
      match decode_path r.encrypted_path with
      | .error e => (.error e, store)
      | .ok path =>
        match r.upload_url with
        | some upload_url =>
          match lookupA fs path with
          | some content =>
            let content_hash := env.hash content
            match env.upload (join_server_url eng.server_url upload_url) with
            | .ok _ =>
              let store2 := if eng.has_state_manager = true then
                  mark_synced_by_id store eng.vault_id path content_hash
                    (intAsU32 (r.new_version.getD 1)) env.time
                else store
              match process_push_results eng env fs store2 rest with
              | (.ok (up, del), store3) => (.ok (up + 1, del), store3)
              | (.error e, store3) => (.error e, store3)
            | .error _ => process_push_results eng env fs store rest
          | none => process_push_results eng env fs store rest
        | none =>
          let store2 := if eng.has_state_manager = true then
              remove_file_state_by_id store eng.vault_id path
            else store
          match process_push_results eng env fs store2 rest with
          | (.ok (up, del), store3) => (.ok (up, del + 1), store3)
          | (.error e, store3) => (.error e, store3)
    else process_push_results eng env fs store rest

/-- engine.rs `SyncEngine::push_changes_incremental`. -/
def push_changes_incremental (eng : SyncEngine) (env : SyncEnv) (fs : Fs)
    (store : StoreState) (cs : ChangeSet) :
    Except SyncError (Nat × Nat) × StoreState :=
  let changes := build_push_changes eng store cs
  if changes.isEmpty = true then (.ok (0, 0), store)
  else
    match env.pushReply with
    | .error e => (.error e, store)
    | .ok resp => process_push_results eng env fs store resp.results

/-- The `Display` rendering of error.rs `SyncError` (thiserror). -/
def error_message : SyncError → RStr
  | .AuthRequired => str "Authentication required"
  | .InvalidCredentials => str "Invalid credentials"
  | .SessionExpired => str "Session expired"
  | .DeviceNotRegistered => str "Device not registered"
  | .VaultNotFound s => str "Vault not found: " ++ s
  | .FileNotFound s => str "File not found: " ++ s
  | .Conflict s => str "Sync conflict detected for: " ++ s
  | .Encryption s => str "Encryption error: " ++ s
  | .Decryption s => str "Decryption error: " ++ s
  | .KeyDerivation s => str "Key derivation error: " ++ s
  | .Network s => str "Network error: " ++ s
  | .Server s => str "Server error: " ++ s
  | .RateLimited n => str "Rate limited, retry after " ++ str (Nat.repr n) ++ str " seconds"
  | .QuotaExceeded => str "Storage quota exceeded"
  | .Database s => str "Database error: " ++ s
  | .Io s => str "IO error: " ++ s
  | .Json s => str "JSON error: " ++ s
  | .InvalidState s => str "Invalid state: " ++ s
  | .InvalidData s => str "Invalid data: " ++ s

/-- engine.rs `SyncEngine::sync`: scan, pull (endpoint failures are
recorded in the error list), rescan, diff, push (endpoint failures are
recorded), then build the `SyncOperationResult`.  A scan failure
propagates as `Err` through the `?` operator. -/
def sync (eng : SyncEngine) (env : SyncEnv) (fs : Fs) (store : StoreState) :
    Except SyncError (SyncOperationResult × Fs × StoreState) :=
  match env.scan1 with
  | .error e => .error e
  | .ok _initial_scan =>
    let rp := pull_changes eng env fs store env.pullReplies
    let pulled := match rp.1 with
      | .ok n => (n, ([] : List RStr))
      | .error e => (0, [str "Pull failed: " ++ error_message e])
    match env.scan2 with
    | .error e => .error e
    | .ok scan_result =>
      let change_set := get_local_changes eng rp.2.2 scan_result
      let pushed := push_changes_incremental eng env rp.2.1 rp.2.2 change_set
      let pushRes := match pushed.1 with
        | .ok (u, d) => (u, d, ([] : List RStr))
        | .error e => (0, 0, [str "Push failed: " ++ error_message e])
      let errors := pulled.2 ++ pushRes.2.2
      .ok ({ success := errors.isEmpty,
             files_uploaded := pushRes.1,
             files_downloaded := pulled.1,
             files_deleted := pushRes.2.1,
             conflicts := [],
             errors := errors,
             duration_ms := env.duration_ms }, rp.2.1, pushed.2)

theorem additive_apply_keeps (eng : SyncEngine) (env : SyncEnv)
    (hadd : eng.additive_only = true) (fs : Fs) (store : StoreState)
    (change : RemoteChange) (p c : RStr) (h : lookupA fs p = some c) :
    lookupA (apply_remote_change eng env fs store change).2.1 p = some c := by
  obtain ⟨rp, hrp⟩ := decode_path_infallible change.encrypted_path
  unfold apply_remote_change
  simp only [hrp]
  by_cases hdel : change.operation = str "delete"
  · rw [if_pos hdel, if_pos hadd]
    exact h
  · rw [if_neg hdel]
    by_cases hcu : change.operation = str "create" ∨ change.operation = str "update"
    · rw [if_pos hcu]
      by_cases hex : eng.additive_only = true ∧ (lookupA fs rp).isSome = true
      · rw [if_pos hex]
        exact h
      · rw [if_neg hex]
        have hnone : lookupA fs rp = none := by
          cases hl : lookupA fs rp with
          | none => rfl
          | some c2 => exact absurd ⟨hadd, by rw [hl]; rfl⟩ hex
        cases hurl : change.download_url with
        | none => simp only [hurl]; exact h
        | some url =>
          simp only [hurl]
          cases hdl : env.download (join_server_url eng.server_url url) with
          | error e => simp only [hdl]; exact h
          | ok content =>
            simp only [hdl]
            by_cases hh : env.hash content ≠ change.content_hash
            · rw [if_pos hh]
              exact h
            · rw [if_neg hh]
              have hne2 : rp ≠ p := by
                intro he
                rw [he] at hnone
                rw [hnone] at h
                exact Option.noConfusion h
              show lookupA (insertA fs rp content) p = some c
              rw [lookupA_insertA_ne fs rp p content hne2]
              exact h
    · rw [if_neg hcu]
      exact h

theorem additive_process_keeps (eng : SyncEngine) (env : SyncEnv)
    (hadd : eng.additive_only = true) :
    ∀ (changes : List RemoteChange) (fs : Fs) (store : StoreState) (p c : RStr),
      lookupA fs p = some c →
      lookupA (process_remote_changes eng env fs store changes).2.1 p = some c := by
  intro changes
  induction changes with
  | nil => intro fs store p c h; exact h
  | cons ch rest ih =>
    intro fs store p c h
    have h1 := additive_apply_keeps eng env hadd fs store ch p c h
    have h2 := ih (apply_remote_change eng env fs store ch).2.1
      (apply_remote_change eng env fs store ch).2.2 p c h1
    unfold process_remote_changes
    cases hres : (apply_remote_change eng env fs store ch).1 with
    | ok u =>
      simp only [hres]
      exact h2
    | error e =>
      simp only [hres]
      exact h2

theorem additive_pull_keeps (eng : SyncEngine) (env : SyncEnv)
    (hadd : eng.additive_only = true) :
    ∀ (replies : List (Except SyncError PullResponse)) (fs : Fs) (store : StoreState)
      (p c : RStr), lookupA fs p = some c →
      lookupA (pull_changes eng env fs store replies).2.1 p = some c := by
  intro replies
  induction replies with
  | nil => intro fs store p c h; exact h
  | cons reply rest ih =>
    intro fs store p c h
    cases reply with
    | error e => exact h
    | ok resp =>
      have h1 := additive_process_keeps eng env hadd resp.changes fs store p c h
      unfold pull_changes
      cases hm : resp.has_more with
      | false =>
        simp only [hm, Bool.false_eq_true, if_false]
        exact h1
      | true =>
        simp only [hm, if_true]
        have h2 := ih (process_remote_changes eng env fs store resp.changes).2.1
          (process_remote_changes eng env fs store resp.changes).2.2 p c h1
        rcases hrec : pull_changes eng env
            (process_remote_changes eng env fs store resp.changes).2.1
            (process_remote_changes eng env fs store resp.changes).2.2 rest
          with ⟨res, fs2, store2⟩
        rw [hrec] at h2
        cases res with
        | ok m => simp only [hrec]; exact h2
        | error e2 => simp only [hrec]; exact h2

/-- C4: with the additive-only flag set, applying remote changes deletes no
locally present file and overwrites no locally present file's content:
remote deletes are skipped outright and return `Ok`, a create/update whose
path exists locally leaves the filesystem untouched, and every locally
present file keeps its exact content through any single change and through
the whole pull phase. -/
theorem additive_only_frame (eng : SyncEngine) (env : SyncEnv)
    (hadd : eng.additive_only = true) :
    (∀ fs store change, change.operation = str "delete" →
       apply_remote_change eng env fs store change = (.ok (), fs, store)) ∧
    (∀ fs store change rp, decode_path change.encrypted_path = .ok rp →
       (change.operation = str "create" ∨ change.operation = str "update") →
       (lookupA fs rp).isSome = true →
       (apply_remote_change eng env fs store change).2.1 = fs) ∧
    (∀ fs store change p c, lookupA fs p = some c →
       lookupA (apply_remote_change eng env fs store change).2.1 p = some c) ∧
    (∀ replies fs store p c, lookupA fs p = some c →
       lookupA (pull_changes eng env fs store replies).2.1 p = some c) := by
  refine ⟨?_, ?_, ?_, ?_⟩
  · intro fs store change hop
    obtain ⟨rp, hrp⟩ := decode_path_infallible change.encrypted_path
    unfold apply_remote_change
    simp only [hrp]
    rw [if_pos hop, if_pos hadd]
  · intro fs store change rp hdec hop hsome
    have hne : ¬ (change.operation = str "delete") := by
      rcases hop with hop | hop <;> rw [hop] <;> decide
    unfold apply_remote_change
    simp only [hdec]
    rw [if_neg hne, if_pos hop, if_pos ⟨hadd, hsome⟩]
  · intro fs store change p c h
    exact additive_apply_keeps eng env hadd fs store change p c h
  · intro replies fs store p c h
    exact additive_pull_keeps eng env hadd replies fs store p c h

/-- An engine with a state manager, additive-only off. -/
def engC : SyncEngine :=
  { server_url := str "http://s", access_token := str "t", vault_id := str "v",
    vault_path := str "/vault", additive_only := false, has_state_manager := true }

/-- The same engine in additive-only mode. -/
def engAdd : SyncEngine := { engC with additive_only := true }

/-- A remote create whose advertised hash will not match the downloaded
bytes under `envC.hash`. -/
def changeC : RemoteChange :=
  { id := str "1", encrypted_path := str "a.md", operation := str "create",
    content_hash := str "deadbeef", size := 1, modified_at := 0, version := 1,
    download_url := some (str "/dl/1") }

/-- A remote delete. -/
def delChangeC : RemoteChange :=
  { id := str "2", encrypted_path := str "b.md", operation := str "delete",
    content_hash := [], size := 0, modified_at := 0, version := 1,
    download_url := none }

/-- A cycle environment: both scans succeed on an empty vault, one pull
batch carries `changeC`, every download returns "body", and the hash of
anything is "otherhash" (so `changeC` mismatches). -/
def envC : SyncEnv :=
  { scan1 := .ok emptyScan, scan2 := .ok emptyScan,
    pullReplies := [.ok { changes := [changeC], next_cursor := str "c1", has_more := false }],
    download := fun _ => .ok (str "body"),
    pushReply := .error (.Network (str "unused")),
    upload := fun _ => .ok (),
    hash := fun _ => str "otherhash",
    time := 0, duration_ms := 0 }

/-- An environment whose first vault scan fails. -/
def envScanFail : SyncEnv :=
  { scan1 := .error (.Io (str "missing")), scan2 := .error (.Io (str "missing")),
    pullReplies := [], download := fun _ => .error (.Network []),
    pushReply := .error (.Network []), upload := fun _ => .ok (),
    hash := fun b => b, time := 0, duration_ms := 0 }

theorem additive_only_frame_witness :
    apply_remote_change engAdd envC [] StoreState.empty delChangeC
      = (.ok (), [], StoreState.empty) ∧
    lookupA (pull_changes engAdd envC [(str "b.md", str "data")] StoreState.empty
        envC.pullReplies).2.1 (str "b.md") = some (str "data") :=
  ⟨(additive_only_frame engAdd envC rfl).1 [] StoreState.empty delChangeC rfl,
   (additive_only_frame engAdd envC rfl).2.2.2 envC.pullReplies
     [(str "b.md", str "data")] StoreState.empty (str "b.md") (str "data")
     (by decide)⟩

/-- C1 (amended): a hash-mismatched download is fatal for that file only —
the file is not written and the store entry is untouched, and the loop
continues over the remaining changes exactly as if the failed change were
absent; but the failure is only logged: nothing is appended to the cycle's
error list and `success` is not forced to false (see the counterexample). -/
theorem hash_mismatch_per_file (eng : SyncEngine) (env : SyncEnv) (fs : Fs)
    (store : StoreState) (change : RemoteChange) (rest : List RemoteChange)
    (rp url content : RStr)
    (hdec : decode_path change.encrypted_path = .ok rp)
    (hop : change.operation = str "create" ∨ change.operation = str "update")
    (hnoskip : ¬ (eng.additive_only = true ∧ (lookupA fs rp).isSome = true))
    (hurl : change.download_url = some url)
    (hdl : env.download (join_server_url eng.server_url url) = .ok content)
    (hmm : env.hash content ≠ change.content_hash) :
    apply_remote_change eng env fs store change
      = (.error (SyncError.InvalidData (str "Downloaded file hash mismatch")), fs, store)
    ∧ process_remote_changes eng env fs store (change :: rest)
      = process_remote_changes eng env fs store rest := by
  have hne : ¬ (change.operation = str "delete") := by
    rcases hop with hop | hop <;> rw [hop] <;> decide
  have hA : apply_remote_change eng env fs store change
      = (.error (SyncError.InvalidData (str "Downloaded file hash mismatch")), fs, store) := by
    unfold apply_remote_change
    simp only [hdec]
    rw [if_neg hne, if_pos hop, if_neg hnoskip]
    simp only [hurl, hdl]
    rw [if_pos hmm]
  refine ⟨hA, ?_⟩
  show (let r1 := apply_remote_change eng env fs store change
        let r2 := process_remote_changes eng env r1.2.1 r1.2.2 rest
        match r1.1 with
        | .ok _ => (r2.1 + 1, r2.2.1, r2.2.2)
        | .error _ => r2) = process_remote_changes eng env fs store rest
  rw [hA]

theorem hash_mismatch_per_file_witness :
    apply_remote_change engC envC [] StoreState.empty changeC
      = (.error (SyncError.InvalidData (str "Downloaded file hash mismatch")),
         [], StoreState.empty)
    ∧ process_remote_changes engC envC [] StoreState.empty [changeC]
      = process_remote_changes engC envC [] StoreState.empty [] :=
  hash_mismatch_per_file engC envC [] StoreState.empty changeC []
    (str "a.md") (str "/dl/1") (str "body")
    rfl (Or.inl rfl) (by decide) rfl rfl (by decide)

/-- C1 counterexample: a cycle whose only remote change fails its hash
check still returns `success = true` with an empty error list — the file
is not written and the cycle continues, but no error is appended and the
result does not report failure, contradicting the claimed
`success == false`. -/
theorem hash_mismatch_cycle_counterexample :
    envC.hash (str "body") ≠ changeC.content_hash ∧
    sync engC envC [] StoreState.empty
      = .ok ({ success := true, files_uploaded := 0, files_downloaded := 0,
               files_deleted := 0, conflicts := [], errors := [],
               duration_ms := 0 }, [], StoreState.empty) := by
  refine ⟨by decide, ?_⟩
  rfl

/-- C2 counterexample: `sync` propagates a vault-scan failure with the `?`
operator and returns `Err` instead of a `SyncOperationResult`. -/
theorem sync_scan_error_counterexample :
    sync engC envScanFail [] StoreState.empty
      = .error (SyncError.Io (str "missing")) := rfl

/-- C2 (amended): whenever both vault scans succeed, the cycle always
returns a `SyncOperationResult` (pull/push failures are recorded in its
error list, not raised), and its `success` field is true exactly when its
error list is empty; a scan failure, however, returns `Err` (see the
counterexample). -/
theorem sync_returns_result (eng : SyncEngine) (env : SyncEnv) (fs : Fs)
    (store : StoreState) (s1 s2 : ScanResult)
    (h1 : env.scan1 = .ok s1) (h2 : env.scan2 = .ok s2) :
    ∃ r fs2 store2, sync eng env fs store = .ok (r, fs2, store2) ∧
      r.success = r.errors.isEmpty ∧ (r.success = true ↔ r.errors = []) := by
  unfold sync
  simp only [h1, h2]
  refine ⟨_, _, _, rfl, rfl, ?_⟩
  simp [List.isEmpty_iff]

theorem sync_returns_result_witness :
    ∃ r fs2 store2, sync engC envC [] StoreState.empty = .ok (r, fs2, store2) ∧
      r.success = r.errors.isEmpty ∧ (r.success = true ↔ r.errors = []) :=
  sync_returns_result engC envC [] StoreState.empty emptyScan emptyScan rfl rfl

end Echopad
